import Mathlib

/-!
# CodeBeam error monitor: shallow embedding and verification

A shallow embedding of the core of `src/index.js` (class `ErrorMonitor`):
the rolling line buffer, the ordered pattern matcher, the context
extractor, the error-stats ledger, the prompt formatter, the clipboard
directive processor, the file writer, and the in-flight guard of the log
processing loop.  Strings are modelled by Lean `String` where only
splitting, equality and concatenation matter, and by `List Char` where
JavaScript `String.prototype.replace` semantics (including `$`-pattern
substitution in the replacement text) must be modelled exactly.
Timestamps are abstract `Nat` instants supplied by the caller.
-/

namespace CodeBeam

/-! ## String-search helpers (JavaScript `indexOf` / `replace` model) -/

/-- Least index at which `pat` occurs as a contiguous sublist of `s`
(JavaScript `String.prototype.indexOf`), `none` when it does not occur. -/
def findSub (s pat : List Char) : Option Nat :=
  if pat.isPrefixOf s then some 0
  else
    match s with
    | [] => none
    | _ :: t => (findSub t pat).map (· + 1)

/-- JavaScript `GetSubstitution`: expand `$`-patterns in the replacement
text.  `matched` is the matched substring, `before`/`after` the parts of
the subject around the match.  With a string search pattern there are no
capture groups, so `$<digit>` stays literal. -/
def getSubstitution (matched before after : List Char) : List Char → List Char
  | [] => []
  | c :: t =>
    if c = '$' then
      match t with
      | [] => [c]
      | d :: t2 =>
        if d = '$' then '$' :: getSubstitution matched before after t2
        else if d = '&' then matched ++ getSubstitution matched before after t2
        else if d = Char.ofNat 96 then before ++ getSubstitution matched before after t2
        else if d = Char.ofNat 39 then after ++ getSubstitution matched before after t2
        else '$' :: d :: getSubstitution matched before after t2
    else c :: getSubstitution matched before after t

/-- JavaScript `s.replace(pat, rep)` with a string pattern: replace the
first occurrence of `pat` only, expanding `$`-patterns in `rep`. -/
def jsReplace (s pat rep : List Char) : List Char :=
  match findSub s pat with
  | none => s
  | some i =>
    let before := s.take i
    let after := s.drop (i + pat.length)
    before ++ getSubstitution pat before after rep ++ after

/-- Test whether `pat` occurs as a contiguous sublist of `s`. -/
def containsSub (s pat : List Char) : Bool :=
  (findSub s pat).isSome

/-- JavaScript `s.split(sep)` for a one-character separator, on
character lists.  `split` never drops fields: an empty string yields
`[""]` and a trailing separator yields a trailing empty field. -/
def splitOnChar (sep : Char) : List Char → List (List Char)
  | [] => [[]]
  | c :: t =>
    let r := splitOnChar sep t
    if c = sep then [] :: r
    else
      match r with
      | [] => [[c]]
      | h :: t2 => (c :: h) :: t2

/-- JavaScript `s.split(sep)` on strings. -/
def splitS (sep : Char) (s : String) : List String :=
  (splitOnChar sep s.data).map String.mk

/-- JavaScript `s.startsWith(pre)`. -/
def strStartsWith (pre s : String) : Bool :=
  pre.data.isPrefixOf s.data

/-- The whitespace characters JavaScript `trim` strips (ASCII part). -/
def isJsSpace (c : Char) : Bool :=
  c = ' ' ∨ c = '\t' ∨ c = '\n' ∨ c = '\r' ∨ c = Char.ofNat 11 ∨ c = Char.ofNat 12

/-- JavaScript `s.trim()`: strip leading and trailing whitespace. -/
def jsTrim (s : String) : String :=
  ⟨(((s.data.dropWhile isJsSpace).reverse.dropWhile isJsSpace).reverse)⟩

/-! ## Data model -/

/-- One error-pattern rule (`CONFIG.errorPatterns` entry): a line
predicate (the compiled regular expression's match test, for rules
without the global flag), an error type tag and a severity. -/
structure EPattern where
  pattern : String → Bool
  type : String
  severity : String

/-- The match record returned by `findFirstError`. -/
structure EMatch where
  line : String
  index : Nat
  type : String
  severity : String
  deriving DecidableEq, Repr

/-- One stats-ledger entry (`ErrorStats`), timestamps as abstract instants. -/
structure Stats where
  count : Nat
  firstSeen : Nat
  lastSeen : Nat
  type : String
  severity : String
  deriving DecidableEq, Repr

/-- The configuration fields the processing core reads
(`CONFIG` / `this.config`). -/
structure Config where
  maxBufferLines : Nat
  contextBefore : Nat
  contextAfter : Nat
  customPromptTemplate : Option String
  errorPatterns : List EPattern
  maxErrorsPerType : Nat

/-! ## Rolling buffer (`ErrorMonitor.updateBuffer`) -/

/-- JavaScript `xs.slice(-n)` for a non-negative `n`: the trailing `n`
elements — except that `slice(-0)` is `slice(0)`, the whole array. -/
def jsSliceNeg (n : Nat) (xs : List α) : List α :=
  if n = 0 then xs else xs.drop (xs.length - n)

/-- JavaScript `content.split('\n')`. -/
def splitLines (content : String) : List String :=
  splitS '\n' content

/-- Method `updateBuffer`: split the content on newlines and keep the trailing
`maxBufferLines` entries. -/
def updateBuffer (cfg : Config) (content : String) : List String :=
  jsSliceNeg cfg.maxBufferLines (splitLines content)

/-! ## Pattern matcher (`ErrorMonitor.findFirstError`) -/

/-- Inner loop of `findFirstError`: the first rule in list order whose
pattern tests true on `line`. -/
def firstRule (rules : List EPattern) (line : String) : Option EPattern :=
  rules.find? (fun r => r.pattern line)

/-- Outer loop of `findFirstError`, carrying the current index. -/
def findFirstErrorAux (rules : List EPattern) : List String → Nat → Option EMatch
  | [], _ => none
  | line :: rest, i =>
    match firstRule rules line with
    | some r => some { line := line, index := i, type := r.type, severity := r.severity }
    | none => findFirstErrorAux rules rest (i + 1)

/-- Method `findFirstError`: scan the buffer from index 0; for each line try the
rules in order; return the first match found, or `none`. -/
def findFirstError (rules : List EPattern) (buffer : List String) : Option EMatch :=
  findFirstErrorAux rules buffer 0

/-! ## Context extractor (`ErrorMonitor.getErrorContext`) -/

/-- Method `getErrorContext`: `buffer.slice(max(0, i-before), min(len, i+after+1)).join('\n')`.
Natural subtraction is the `max(0, ·)` clamp. -/
def getErrorContext (cfg : Config) (buffer : List String) (errorIndex : Nat) : String :=
  let start := errorIndex - cfg.contextBefore
  let stop := min buffer.length (errorIndex + cfg.contextAfter + 1)
  String.intercalate "\n" ((buffer.drop start).take (stop - start))

/-! ## Error stats ledger (`ErrorMonitor.updateErrorStats`)

A JavaScript `Map` preserves insertion order; it is modelled by an
association list in insertion order: `set` of a fresh key appends,
`set`/update of a present key updates in place, `Array.from(keys())[0]`
is the first entry's key, and `delete` removes that entry. -/

/-- The in-place update of a present entry: `stats.count++` and
`stats.lastSeen = new Date()`, `firstSeen` untouched. -/
def bumpStats (st : Stats) (now : Nat) : Stats :=
  { st with count := st.count + 1, lastSeen := now }

/-- Lines 284–296 of `updateErrorStats`: insert a fresh entry
(`count = 1`, `firstSeen = lastSeen = now`) when the key is absent,
else bump `count` and `lastSeen` in place. -/
def recordStep (m : List (String × Stats)) (e : EMatch) (now : Nat) :
    List (String × Stats) :=
  let key := e.type ++ "-" ++ e.line
  if (m.find? (fun p => p.1 == key)).isSome then
    m.map (fun p => if p.1 == key then (p.1, bumpStats p.2 now) else p)
  else
    m ++ [(key, { count := 1, firstSeen := now, lastSeen := now,
                  type := e.type, severity := e.severity })]

/-- Lines 298–302 of `updateErrorStats`: when the ledger size exceeds
`maxErrorsPerType`, delete the entry of the first (oldest-inserted) key. -/
def evictIfOver (maxE : Nat) (m : List (String × Stats)) : List (String × Stats) :=
  if maxE < m.length then
    match m with
    | [] => m
    | (k0, _) :: _ => m.eraseP (fun p => p.1 == k0)
  else m

/-- Method `updateErrorStats`: record the match, then evict when over capacity. -/
def updateErrorStats (maxE : Nat) (m : List (String × Stats)) (e : EMatch)
    (now : Nat) : List (String × Stats) :=
  evictIfOver maxE (recordStep m e now)

/-! ## Prompt formatter (`ErrorMonitor.formatErrorPrompt`) -/

/-- The error record handed to the formatter (`errorData` in
`handleError`); `timestamp` is the ISO string of the current instant,
kept abstract. -/
structure ERecord where
  type : String
  severity : String
  timestamp : String
  context : String
  deriving DecidableEq, Repr

/-- Template path of `formatErrorPrompt`: four chained
single-occurrence `replace` calls on the custom template. -/
def substituteTemplate (tpl : List Char) (r : ERecord) : List Char :=
  jsReplace (jsReplace (jsReplace (jsReplace tpl
    "${type}".data r.type.data)
    "${severity}".data r.severity.data)
    "${timestamp}".data r.timestamp.data)
    "${context}".data r.context.data

/-- Default-template path of `formatErrorPrompt` (the template literal
at the end of the method). -/
def defaultPrompt (r : ERecord) : String :=
  "\n#ERROR_ANALYSIS_REQUEST\n\nError Context:\nType: " ++ r.type ++
  "\nSeverity: " ++ r.severity ++ "\nTimestamp: " ++ r.timestamp ++
  "\n\nError and Context:\n" ++ r.context ++
  "\n\nPlease provide:\n1. Root Cause Analysis\n2. File Location Analysis\n3. Suggested Fixes (using #auto-ai format)\n4. Prevention Suggestions\n"

/-- Method `formatErrorPrompt`: substitute into the custom template when one is
configured, else render the built-in default. -/
def formatErrorPrompt (cfg : Config) (r : ERecord) : String :=
  match cfg.customPromptTemplate with
  | some tpl => ⟨substituteTemplate tpl.data r⟩
  | none => defaultPrompt r

/-! ## Log processing cycle (`ErrorMonitor.processLogFile` body) -/

/-- The monitor's mutable state touched by a log-processing cycle. -/
structure MonState where
  buffer : List String
  lastContent : String
  errorStats : List (String × Stats)
  deriving DecidableEq, Repr

/-- The externally visible output of one cycle: the prompt written to
the clipboard and the notification title, when an error was reported. -/
structure CycleOutput where
  clipboard : String
  notification : String
  deriving DecidableEq, Repr

/-- What `handleError` publishes for a match found at buffer position
`e.index`: the formatted prompt written to the clipboard and the
notification title. -/
def reportFor (cfg : Config) (buffer : List String) (e : EMatch) (now : Nat) :
    CycleOutput :=
  { clipboard := formatErrorPrompt cfg
      { type := e.type, severity := e.severity, timestamp := toString now,
        context := getErrorContext cfg buffer e.index },
    notification := "Error Detected (" ++ e.type ++ ")" }

/-- The body of `processLogFile` between the guard and the `finally`:
`readResult` is what `readLogFile` returned (`none` on a read error).
A falsy (`none` or empty) or unchanged content ends the cycle with no
state change; otherwise the buffer is rebuilt, the first error (if any)
is reported, stats are updated, and the content becomes last-seen. -/
def processCycle (cfg : Config) (s : MonState) (readResult : Option String)
    (now : Nat) : MonState × Option CycleOutput :=
  match readResult with
  | none => (s, none)
  | some content =>
    if content = "" ∨ content = s.lastContent then (s, none)
    else
      let buffer := updateBuffer cfg content
      match findFirstError cfg.errorPatterns buffer with
      | none => ({ buffer := buffer, lastContent := content,
                   errorStats := s.errorStats }, none)
      | some e =>
        ({ buffer := buffer, lastContent := content,
           errorStats := updateErrorStats cfg.maxErrorsPerType s.errorStats e now },
         some (reportFor cfg buffer e now))

/-! ## In-flight guard (`processLogFile` guard, `startFileWatcher`,
`startFilePolling`)

The event loop is modelled by a trace of events: `trigger` is a watcher
change event or a poll tick reaching the guard; `complete r now` is an
open cycle's body running to completion on read result `r`;
`fail` is an open cycle's body raising, reaching only the `finally`.
`openCycles` counts cycles that have started and not yet ended —
the guard is what keeps it at most 1. -/

inductive MEvent where
  | trigger
  | complete (readResult : Option String) (now : Nat)
  | fail
  deriving Repr

/-- Full loop state: monitor state plus the `isProcessing` latch and the
open-cycle count. -/
structure LoopState where
  mon : MonState
  isProcessing : Bool
  openCycles : Nat
  deriving Repr

/-- One event of the loop.  A `trigger` while `isProcessing` is dropped
(state unchanged, nothing queued); otherwise it latches the guard and
opens a cycle.  `complete`/`fail` close the open cycle and clear the
guard (the `finally` block), `fail` leaving the monitor state as it was. -/
def stepEv (cfg : Config) (s : LoopState) : MEvent → LoopState
  | .trigger =>
    if s.isProcessing then s
    else { s with isProcessing := true, openCycles := s.openCycles + 1 }
  | .complete r now =>
    if s.isProcessing then
      { mon := (processCycle cfg s.mon r now).1, isProcessing := false,
        openCycles := s.openCycles - 1 }
    else s
  | .fail =>
    if s.isProcessing then
      { s with isProcessing := false, openCycles := s.openCycles - 1 }
    else s

/-- Run a trace of events. -/
def runEvents (cfg : Config) (s : LoopState) (evs : List MEvent) : LoopState :=
  evs.foldl (stepEv cfg) s

/-- The monitor's initial state (constructor fields). -/
def initLoopState : LoopState :=
  { mon := { buffer := [], lastContent := "", errorStats := [] },
    isProcessing := false, openCycles := 0 }

/-! ## Path model (Node `path.resolve` / `path.dirname` / `path.join`)

An absolute path is a list of segments from the root.  `normSegs`
performs Node's normalization: empty and `.` segments vanish, `..` pops
one segment (and is a no-op at the root, as for absolute paths). -/

/-- Split a path string on `/` into raw segments. -/
def rawSegs (s : String) : List String :=
  splitS '/' s

/-- One step of path normalization. -/
def normStep (acc : List String) (seg : String) : List String :=
  if seg = "" ∨ seg = "." then acc
  else if seg = ".." then acc.dropLast
  else acc ++ [seg]

/-- Normalize a segment list as Node does for an absolute path. -/
def normSegs (l : List String) : List String :=
  l.foldl normStep []

/-- Node `path.resolve(p)` against an absolute working directory `cwd`
(already in normalized segment form). -/
def resolveSegs (cwd : List String) (p : String) : List String :=
  if strStartsWith "/" p then normSegs (rawSegs p)
  else normSegs (cwd ++ rawSegs p)

/-- JavaScript `filePath.replace(/^\//, '')`: strip a single leading slash. -/
def stripLeadingSlash (s : String) : String :=
  match s.data with
  | '/' :: t => ⟨t⟩
  | _ => s

/-- The resolution in `writeFile`:
`path.join(logDir, filePath.replace(/^\//, ''))` where
`logDir = path.dirname(path.resolve(this.logPath))`. -/
def resolveTarget (logDir : List String) (filePath : String) : List String :=
  normSegs (logDir ++ rawSegs (stripLeadingSlash filePath))

/-! ## File-system model and file writer (`ErrorMonitor.writeFile`) -/

/-- The file system: a set of existing directories and an association
list of files with contents, both keyed by absolute segment paths. -/
structure FS where
  dirs : List (List String)
  files : List (List String × String)
  deriving DecidableEq, Repr

/-- Contents of the file at `p`, when present. -/
def getFile (fs : FS) (p : List String) : Option String :=
  (fs.files.find? (fun q => q.1 == p)).map (fun q => q.2)

/-- Write contents at `p`, replacing a present entry in place. -/
def setFile (files : List (List String × String)) (p : List String)
    (c : String) : List (List String × String) :=
  if (files.find? (fun q => q.1 == p)).isSome then
    files.map (fun q => if q.1 == p then (q.1, c) else q)
  else files ++ [(p, c)]

/-- Node `fs.mkdir(dir, { recursive: true })`: create the directory and every
ancestor. -/
def mkdirRec (fs : FS) (d : List String) : FS :=
  { fs with dirs := fs.dirs ++ d.inits }

/-- Method `ErrorMonitor.writeFile(filePath, content, command)`: resolve the
target under the log file's directory, create parent directories, then
append (direct concatenation, creating the file if absent) when the
command is exactly `"append"`, else replace the contents. -/
def writeFile (cwd : List String) (logPath : String) (fs : FS)
    (filePath content command : String) : FS :=
  let logDir := (resolveSegs cwd logPath).dropLast
  let absolutePath := resolveTarget logDir filePath
  let fs1 := mkdirRec fs absolutePath.dropLast
  if command = "append" then
    { fs1 with files :=
        setFile fs1.files absolutePath (((getFile fs1 absolutePath).getD "") ++ content) }
  else
    { fs1 with files := setFile fs1.files absolutePath content }

/-! ## Clipboard directive processing
(`ErrorMonitor.processClipboardContent`, `startClipboardMonitoring`) -/

/-- Outcome of one `processClipboardContent` call, as surfaced to the
user (console/notification); the `catch` block turns the thrown
invalid-format error into `formatError`. -/
inductive ClipResult where
  | ignored
  | success (command filePath : String)
  | formatError
  deriving DecidableEq, Repr

/-- Method `processClipboardContent`: ignore text not starting with the
`#auto-ai` marker; with fewer than three lines, throw (caught: error
notification, no write); otherwise parse command (defaulting to
`replace` only when the first line has no second token), target path and
payload, and delegate to `writeFile`. -/
def processClipboardContent (cwd : List String) (logPath : String) (fs : FS)
    (content : String) : FS × ClipResult :=
  if ¬ strStartsWith "#auto-ai" content then (fs, .ignored)
  else
    let lines := splitS '\n' content
    if lines.length < 3 then (fs, .formatError)
    else
      let firstLine := splitS ' ' (lines.headD "")
      let command := (firstLine.get? 1).getD "replace"
      let filePath := jsTrim (lines.getD 1 "")
      let fileContent := String.intercalate "\n" (lines.drop 2)
      (writeFile cwd logPath fs filePath fileContent command,
       .success command filePath)

/-- The clipboard loop's state: the last-seen clipboard text and the
file system it writes to. -/
structure ClipState where
  lastClipboardContent : String
  fs : FS
  deriving DecidableEq, Repr

/-- One tick of `startClipboardMonitoring`: when the clipboard text is
non-empty and differs from last-seen, process it and then record it as
last-seen — `processClipboardContent` catches its own errors, so the
last-seen update runs even when directive handling failed. -/
def clipboardTick (cwd : List String) (logPath : String) (s : ClipState)
    (content : String) : ClipState :=
  if content ≠ "" ∧ content ≠ s.lastClipboardContent then
    { lastClipboardContent := content,
      fs := (processClipboardContent cwd logPath s.fs content).1 }
  else s

/-! ## JavaScript `RegExp.test` model (`errorDef.pattern.test(line)`)

`loadCustomConfigurations` compiles custom rules with caller-supplied
flags (`new RegExp(pattern.pattern, pattern.flags || 'i')`).  A JavaScript
regex object carries a mutable `lastIndex`; `test` on a regex with the
global (or sticky) flag starts the search at `lastIndex`, stores the
match end back into it on success and resets it to 0 on failure, while a
non-global regex always searches from 0 and leaves `lastIndex` alone.
The search primitive itself is abstracted as `exec`. -/

structure JsRegex where
  exec : List Char → Nat → Option (Nat × Nat)
  global : Bool

/-- JavaScript `RegExp.prototype.test` on subject `s` with current `lastIndex`:
returns the boolean result and the new `lastIndex`. -/
def regexTest (r : JsRegex) (lastIndex : Nat) (s : List Char) : Bool × Nat :=
  if r.global then
    match r.exec s lastIndex with
    | some (_, e) => (true, e)
    | none => (false, 0)
  else
    match r.exec s 0 with
    | some _ => (true, lastIndex)
    | none => (false, lastIndex)

/-- A concrete search primitive: first occurrence of the literal `pat`
at or after the start position (the regex `/pat/` for a literal
pattern). -/
def literalRegex (pat : List Char) (g : Bool) : JsRegex :=
  { exec := fun s i =>
      (findSub (s.drop i) pat).map (fun j => (i + j, i + j + pat.length)),
    global := g }

/-! ## Template shapes for the prompt formatter

A custom template in which each placeholder occurs exactly once is an
interleaving of literal segments and the four placeholders, in any
order.  `TplPiece` captures that shape; `renderTpl` flattens it back to
the template text the formatter receives. -/

inductive TplPiece where
  | lit (l : List Char)
  | phType
  | phSeverity
  | phTimestamp
  | phContext
  deriving DecidableEq, Repr

/-- The text a piece contributes to the template. -/
def pieceText : TplPiece → List Char
  | .lit l => l
  | .phType => "${type}".data
  | .phSeverity => "${severity}".data
  | .phTimestamp => "${timestamp}".data
  | .phContext => "${context}".data

/-- Flatten a piece list to the template text. -/
def renderTpl : List TplPiece → List Char
  | [] => []
  | p :: ps => pieceText p ++ renderTpl ps

/-- Replace one placeholder piece by a literal value, leaving every
other piece alone. -/
def substPiece (ph : TplPiece) (v : List Char) (p : TplPiece) : TplPiece :=
  if p = ph then .lit v else p

/-- Replace every placeholder piece by the corresponding field of the
record. -/
def substRecord (r : ERecord) : TplPiece → TplPiece
  | .lit l => .lit l
  | .phType => .lit r.type.data
  | .phSeverity => .lit r.severity.data
  | .phTimestamp => .lit r.timestamp.data
  | .phContext => .lit r.context.data

/-- Test for a placeholder piece. -/
def isPh : TplPiece → Bool
  | .lit _ => false
  | _ => true

/-! ## Sample values and the guard invariant -/

/-- A sample configuration for concrete instantiations. -/
def cfgSample : Config :=
  { maxBufferLines := 2, contextBefore := 1, contextAfter := 1,
    customPromptTemplate := none, errorPatterns := [], maxErrorsPerType := 1 }

/-- A configuration with `maxBufferLines := 0`. -/
def cfgZeroBuf : Config :=
  { maxBufferLines := 0, contextBefore := 5, contextAfter := 20,
    customPromptTemplate := none, errorPatterns := [], maxErrorsPerType := 100 }

/-- A sample match for concrete ledger instantiations. -/
def egMatch : EMatch :=
  { line := "boom", index := 0, type := "general", severity := "high" }

/-- A one-entry ledger holding `egMatch` recorded at instant 5. -/
def ledger1 : List (String × Stats) := recordStep [] egMatch 5

/-- The stats entry created for `egMatch` at instant 5. -/
def egStats5 : Stats :=
  { count := 1, firstSeen := 5, lastSeen := 5,
    type := egMatch.type, severity := egMatch.severity }

/-- A monitor state whose last-seen content is `"x"`. -/
def monStateX : MonState := { buffer := [], lastContent := "x", errorStats := [] }

/-- The guard invariant: exactly one cycle is open while `isProcessing`
is latched, none otherwise. -/
def loopInv (s : LoopState) : Prop :=
  s.openCycles = if s.isProcessing then 1 else 0

/-- A configuration carrying a custom template in which every
placeholder occurs exactly once, in permuted order. -/
def cfgTpl : Config :=
  { cfgSample with customPromptTemplate := some "${context} | ${timestamp} ${severity} ${type}!" }

/-- The piece decomposition of `cfgTpl`'s template: the placeholders
appear in a permuted order. -/
def psPerm : List TplPiece :=
  [TplPiece.phContext, TplPiece.lit " | ".data, TplPiece.phTimestamp,
   TplPiece.lit " ".data, TplPiece.phSeverity, TplPiece.lit " ".data,
   TplPiece.phType, TplPiece.lit "!".data]

/-- A configuration whose custom template repeats `${type}` (and still
contains all four placeholders). -/
def cfgDup : Config :=
  { cfgSample with customPromptTemplate := some "${type} ${type} ${severity} ${timestamp} ${context}" }

/-- A sample error record. -/
def egRecord : ERecord :=
  { type := "javascript", severity := "critical", timestamp := "T1",
    context := "ctx line" }

/-- A path segment that survives normalization untouched. -/
def goodSeg (s : String) : Prop :=
  s ≠ "" ∧ s ≠ "." ∧ s ≠ ".."

/-- The empty file system. -/
def fsEmpty : FS := { dirs := [], files := [] }

/-! # Theorems -/

/-! ## Rolling buffer (claim C4) -/

/-- C4 counterexample: with `maxBufferLines = 0` the buffer update keeps
every line (`slice(-0)` is `slice(0)`), so the buffer does not contain
at most `maxBufferLines` entries. -/
theorem updateBuffer_zero_cex :
    updateBuffer cfgZeroBuf "a\nb" = ["a", "b"]
    ∧ ¬ (updateBuffer cfgZeroBuf "a\nb").length ≤ cfgZeroBuf.maxBufferLines := by
  decide

/-- C4 (amended): for every input and every positive `maxBufferLines`,
the updated buffer has at most `maxBufferLines` entries and is exactly
the trailing lines of the newline-split input, in original order. -/
theorem updateBuffer_trailing (cfg : Config) (content : String)
    (hpos : 0 < cfg.maxBufferLines) :
    (updateBuffer cfg content).length ≤ cfg.maxBufferLines
    ∧ updateBuffer cfg content <:+ splitLines content
    ∧ (updateBuffer cfg content).length
        = min cfg.maxBufferLines (splitLines content).length := by
  have hne : cfg.maxBufferLines ≠ 0 := Nat.pos_iff_ne_zero.mp hpos
  unfold updateBuffer jsSliceNeg
  rw [if_neg hne]
  refine ⟨?_, List.drop_suffix _ _, ?_⟩ <;>
    simp [List.length_drop] <;> omega

/-- Witness for `updateBuffer_trailing` at a concrete input. -/
theorem updateBuffer_trailing_witness :
    0 < cfgSample.maxBufferLines
    ∧ (updateBuffer cfgSample "a\nb\nc").length ≤ cfgSample.maxBufferLines
    ∧ updateBuffer cfgSample "a\nb\nc" <:+ splitLines "a\nb\nc" :=
  ⟨by decide, (updateBuffer_trailing cfgSample "a\nb\nc" (by decide)).1,
   (updateBuffer_trailing cfgSample "a\nb\nc" (by decide)).2.1⟩

/-! ## Regex statefulness (claim C9) -/

/-- C9: the code is wrong against the spec's stateless-matching
contract.  A rule compiled from a custom patterns file with
caller-supplied flags containing `g` carries a mutable `lastIndex`:
testing the literal pattern `a` against the line `a` returns `true` on
the first call and `false` on the second, so repeated testing of the
same line is not idempotent. -/
theorem regexTest_global_stateful :
    (regexTest (literalRegex ['a'] true) 0 ['a']).1 = true
    ∧ (regexTest (literalRegex ['a'] true)
        ((regexTest (literalRegex ['a'] true) 0 ['a']).2) ['a']).1 = false
    ∧ ∀ (li li2 : Nat),
        (regexTest (literalRegex ['a'] false) li ['a']).2 = li
        ∧ (regexTest (literalRegex ['a'] false) li ['a']).1
            = (regexTest (literalRegex ['a'] false) li2 ['a']).1 := by
  refine ⟨by decide, by decide, ?_⟩
  intro li li2
  simp [regexTest, literalRegex, findSub, List.isPrefixOf]

/-! ## Pattern matcher (claim C3) -/

/-- Decomposition of a successful `List.find?`: the found element is
the first satisfying element in list order. -/
theorem find?_decomp {α : Type} (p : α → Bool) :
    ∀ (l : List α) (r : α), l.find? p = some r →
      ∃ pre post, l = pre ++ r :: post ∧ p r = true ∧ ∀ q ∈ pre, p q = false := by
  intro l
  induction l with
  | nil => intro r h; simp at h
  | cons a t ih =>
    intro r h
    cases hp : p a with
    | true =>
      rw [List.find?_cons_of_pos _ hp] at h
      obtain rfl : a = r := by injection h
      exact ⟨[], t, rfl, hp, by simp⟩
    | false =>
      rw [List.find?_cons_of_neg _ (by simp [hp])] at h
      obtain ⟨pre, post, rfl, hr, hpre⟩ := ih r h
      refine ⟨a :: pre, post, rfl, hr, ?_⟩
      intro q hq
      rcases List.mem_cons.mp hq with rfl | hq
      · exact hp
      · exact hpre q hq

/-- A scan by `findFirstErrorAux` returning `none` means no rule matches any
buffered line. -/
theorem findFirstErrorAux_none_iff (rules : List EPattern) :
    ∀ (buffer : List String) (i : Nat),
      findFirstErrorAux rules buffer i = none ↔ ∀ l ∈ buffer, firstRule rules l = none := by
  intro buffer
  induction buffer with
  | nil => intro i; simp [findFirstErrorAux]
  | cons line rest ih =>
    intro i
    simp only [findFirstErrorAux]
    cases h : firstRule rules line with
    | some r => simp [h]
    | none => simp [h, ih]

/-- Characterization of a successful `findFirstErrorAux` scan started at
index `i`. -/
theorem findFirstErrorAux_some_spec (rules : List EPattern) :
    ∀ (buffer : List String) (i : Nat) (m : EMatch),
      findFirstErrorAux rules buffer i = some m →
      i ≤ m.index ∧ m.index - i < buffer.length
      ∧ buffer.getD (m.index - i) "" = m.line
      ∧ (∀ j, j < m.index - i → firstRule rules (buffer.getD j "") = none)
      ∧ ∃ r, firstRule rules m.line = some r ∧ m.type = r.type ∧ m.severity = r.severity := by
  intro buffer
  induction buffer with
  | nil => intro i m h; simp [findFirstErrorAux] at h
  | cons line rest ih =>
    intro i m h
    simp only [findFirstErrorAux] at h
    cases hf : firstRule rules line with
    | some r =>
      rw [hf] at h
      obtain rfl : EMatch.mk line i r.type r.severity = m := by injection h
      refine ⟨Nat.le_refl i, by simp, by simp, by simp, r, hf, rfl, rfl⟩
    | none =>
      rw [hf] at h
      obtain ⟨h1, h2, h3, h4, h5⟩ := ih (i + 1) m h
      have hk : m.index - i = (m.index - (i + 1)) + 1 := by omega
      refine ⟨by omega, by simp [hk]; omega, by simpa [hk] using h3, ?_, h5⟩
      intro j hj
      cases j with
      | zero => simpa using hf
      | succ jj =>
        have : jj < m.index - (i + 1) := by omega
        simpa using h4 jj this

/-- C3: `findFirstError` returns the match at the lowest buffer index at
which any rule matches, pairing that line with the first rule in list
order whose pattern matches it (never a later rule); it returns `none`
exactly when no rule matches any buffered line. -/
theorem findFirstError_spec (rules : List EPattern) (buffer : List String) :
    (findFirstError rules buffer = none
        ↔ ∀ l ∈ buffer, ∀ r ∈ rules, r.pattern l = false)
    ∧ ∀ m, findFirstError rules buffer = some m →
        m.index < buffer.length
        ∧ buffer.getD m.index "" = m.line
        ∧ (∀ j, j < m.index → ∀ r ∈ rules, r.pattern (buffer.getD j "") = false)
        ∧ ∃ pre r post, rules = pre ++ r :: post
            ∧ r.pattern m.line = true
            ∧ (∀ q ∈ pre, q.pattern m.line = false)
            ∧ m.type = r.type ∧ m.severity = r.severity := by
  constructor
  · rw [findFirstError, findFirstErrorAux_none_iff]
    constructor
    · intro h l hl r hr
      have := List.find?_eq_none.mp (h l hl) r hr
      simpa using this
    · intro h l hl
      exact List.find?_eq_none.mpr (fun r hr => by simp [h l hl r hr])
  · intro m h
    obtain ⟨h1, h2, h3, h4, r, hr, ht, hs⟩ :=
      findFirstErrorAux_some_spec rules buffer 0 m h
    refine ⟨by simpa using h2, by simpa using h3, ?_, ?_⟩
    · intro j hj q hq
      have := List.find?_eq_none.mp (h4 j (by omega)) q hq
      simpa using this
    · obtain ⟨pre, post, hrules, hpr, hpre⟩ := find?_decomp _ rules r hr
      exact ⟨pre, r, post, hrules, hpr, hpre, ht, hs⟩

/-- Witness for `findFirstError_spec` at concrete rules and buffer. -/
theorem findFirstError_spec_witness :
    ∃ m, findFirstError
        [{ pattern := fun l => strStartsWith "ERR" l, type := "general", severity := "high" }]
        ["ok", "ERR boom"] = some m ∧ m.index < 2 :=
  ⟨{ line := "ERR boom", index := 1, type := "general", severity := "high" },
   by decide,
   ((findFirstError_spec
      [{ pattern := fun l => strStartsWith "ERR" l, type := "general", severity := "high" }]
      ["ok", "ERR boom"]).2 _ (by decide)).1⟩

/-! ## Error stats ledger (claim C5) -/

/-- Behaviour of `find?` over the in-place bump: the first entry under `key` gets
bumped and stays the first entry under `key`. -/
theorem find?_map_bump (key : String) (now : Nat) :
    ∀ (m : List (String × Stats)) (q : String × Stats),
      m.find? (fun p => p.1 == key) = some q →
      (m.map (fun p => if p.1 == key then (p.1, bumpStats p.2 now) else p)).find?
          (fun p => p.1 == key) = some (q.1, bumpStats q.2 now) := by
  intro m
  induction m with
  | nil => intro q h; simp at h
  | cons a t ih =>
    intro q h
    by_cases ha : a.1 = key
    · rw [List.find?_cons_of_pos _ (by simp [ha])] at h
      obtain rfl : a = q := by injection h
      simp only [List.map_cons, if_pos (by simp [ha] : (a.1 == key) = true)]
      exact List.find?_cons_of_pos _ (by simp [ha])
    · rw [List.find?_cons_of_neg _ (by simp [ha])] at h
      simp only [List.map_cons, if_neg (by simp [ha] : ¬ (a.1 == key) = true)]
      rw [List.find?_cons_of_neg _ (by simp [ha])]
      exact ih q h

/-- The size of the ledger after the record step grows by one on a fresh
key and is unchanged on a present key. -/
theorem recordStep_length (m : List (String × Stats)) (e : EMatch) (now : Nat) :
    (recordStep m e now).length = m.length
    ∨ (recordStep m e now).length = m.length + 1 := by
  by_cases h : (m.find? (fun p => p.1 == e.type ++ "-" ++ e.line)).isSome
  · left; simp [recordStep, h]
  · right; simp [recordStep, h]

/-- C5: recording under key `type + "-" + line` inserts
`{count := 1, firstSeen := lastSeen := now}` when the key is absent and
otherwise bumps `count` and `lastSeen` leaving `firstSeen` unchanged;
when the resident key count exceeds `maxErrorsPerType` after the record,
exactly the single oldest-inserted entry is dropped, so a ledger within
capacity stays within capacity. -/
theorem updateErrorStats_spec (maxE : Nat) (m : List (String × Stats))
    (e : EMatch) (now : Nat) :
    (m.find? (fun p => p.1 == e.type ++ "-" ++ e.line) = none →
      recordStep m e now = m ++ [(e.type ++ "-" ++ e.line,
        { count := 1, firstSeen := now, lastSeen := now,
          type := e.type, severity := e.severity })])
    ∧ (∀ q, m.find? (fun p => p.1 == e.type ++ "-" ++ e.line) = some q →
        (recordStep m e now).find? (fun p => p.1 == e.type ++ "-" ++ e.line)
            = some (q.1, bumpStats q.2 now)
        ∧ (recordStep m e now).length = m.length)
    ∧ (maxE < (recordStep m e now).length →
        updateErrorStats maxE m e now = (recordStep m e now).tail)
    ∧ (¬ maxE < (recordStep m e now).length →
        updateErrorStats maxE m e now = recordStep m e now)
    ∧ (m.length ≤ maxE → (updateErrorStats maxE m e now).length ≤ maxE) := by
  refine ⟨?_, ?_, ?_, ?_, ?_⟩
  · intro h
    simp [recordStep, h]
  · intro q h
    constructor
    · unfold recordStep
      rw [if_pos (by simp [h])]
      exact find?_map_bump _ now m q h
    · unfold recordStep
      rw [if_pos (by simp [h])]
      simp
  · intro h
    unfold updateErrorStats evictIfOver
    rw [if_pos h]
    cases hm : recordStep m e now with
    | nil => rw [hm] at h; simp at h
    | cons a t =>
      obtain ⟨k0, st0⟩ := a
      have he : List.eraseP (fun p => p.1 == k0) ((k0, st0) :: t) = t :=
        List.eraseP_cons_of_pos (by simp)
      simp [he]
  · intro h
    unfold updateErrorStats evictIfOver
    rw [if_neg h]
  · intro h
    rcases recordStep_length m e now with hl | hl
    · unfold updateErrorStats evictIfOver
      rw [if_neg (by omega)]
      omega
    · unfold updateErrorStats evictIfOver
      by_cases hc : maxE < (recordStep m e now).length
      · rw [if_pos hc]
        cases hm : recordStep m e now with
        | nil => simp
        | cons a t =>
          obtain ⟨k0, st0⟩ := a
          rw [hm] at hl
          have he : List.eraseP (fun p => p.1 == k0) ((k0, st0) :: t) = t :=
            List.eraseP_cons_of_pos (by simp)
          simp only [he]
          simp at hl
          omega
      · rw [if_neg hc]
        omega

/-- Witness for `updateErrorStats_spec`: a fresh key is inserted with
`count = 1`, and recording the same key again yields `count = 2` with
`firstSeen` unchanged and `lastSeen` updated. -/
theorem updateErrorStats_spec_witness :
    (recordStep [] egMatch 5 = [(egMatch.type ++ "-" ++ egMatch.line, egStats5)])
    ∧ (recordStep ledger1 egMatch 6).find?
        (fun p => p.1 == egMatch.type ++ "-" ++ egMatch.line)
      = some (egMatch.type ++ "-" ++ egMatch.line, bumpStats egStats5 6) :=
  ⟨(updateErrorStats_spec 1 [] egMatch 5).1 (by decide),
   ((updateErrorStats_spec 1 ledger1 egMatch 6).2.1
      (egMatch.type ++ "-" ++ egMatch.line, egStats5) (by decide)).1⟩

/-! ## Log processing cycle (claim C2) -/

/-- C2 counterexample: the empty string is readable content that differs
from the last-seen content `"x"`, yet the cycle is a complete no-op —
the `!content` falsy check short-circuits before the buffer update, so
neither the buffer nor the last-seen content is updated. -/
theorem processCycle_empty_content_cex :
    ("" : String) ≠ monStateX.lastContent
    ∧ processCycle cfgSample monStateX (some "") 0 = (monStateX, none)
    ∧ (processCycle cfgSample monStateX (some "") 0).1.lastContent ≠ "" := by
  decide

/-- C2 (amended): an unreadable file ends the cycle with no state
change; content equal to the last-seen content is a no-op; any
*non-empty* content that differs rebuilds the buffer, reports exactly
the first match found by `findFirstError` (when one exists) with its
formatted prompt on the clipboard and a stats-ledger update, and records
the content as last-seen. -/
theorem processCycle_spec (cfg : Config) (s : MonState) (now : Nat) :
    (processCycle cfg s none now = (s, none))
    ∧ (∀ c, c = s.lastContent → processCycle cfg s (some c) now = (s, none))
    ∧ (∀ c, c ≠ "" → c ≠ s.lastContent →
        (processCycle cfg s (some c) now).1.buffer = updateBuffer cfg c
        ∧ (processCycle cfg s (some c) now).1.lastContent = c
        ∧ (findFirstError cfg.errorPatterns (updateBuffer cfg c) = none →
            (processCycle cfg s (some c) now).1.errorStats = s.errorStats
            ∧ (processCycle cfg s (some c) now).2 = none)
        ∧ (∀ e, findFirstError cfg.errorPatterns (updateBuffer cfg c) = some e →
            (processCycle cfg s (some c) now).1.errorStats
              = updateErrorStats cfg.maxErrorsPerType s.errorStats e now
            ∧ (processCycle cfg s (some c) now).2
              = some (reportFor cfg (updateBuffer cfg c) e now))) := by
  refine ⟨rfl, ?_, ?_⟩
  · intro c h
    simp [processCycle, h]
  · intro c h1 h2
    have hcond : ¬ (c = "" ∨ c = s.lastContent) := by
      intro hor; rcases hor with h | h
      · exact h1 h
      · exact h2 h
    refine ⟨?_, ?_, ?_, ?_⟩
    · simp only [processCycle]
      rw [if_neg hcond]
      cases hf : findFirstError cfg.errorPatterns (updateBuffer cfg c) <;> simp [hf]
    · simp only [processCycle]
      rw [if_neg hcond]
      cases hf : findFirstError cfg.errorPatterns (updateBuffer cfg c) <;> simp [hf]
    · intro hf
      simp only [processCycle]
      rw [if_neg hcond]
      simp [hf]
    · intro e hf
      simp only [processCycle]
      rw [if_neg hcond]
      simp [hf]

/-- Witness for `processCycle_spec`: a changed non-empty content is
recorded as last-seen. -/
theorem processCycle_spec_witness :
    ("hello" : String) ≠ "" ∧ "hello" ≠ monStateX.lastContent
    ∧ (processCycle cfgSample monStateX (some "hello") 0).1.lastContent = "hello" :=
  ⟨by decide, by decide,
   ((processCycle_spec cfgSample monStateX 0).2.2 "hello" (by decide) (by decide)).2.1⟩

/-! ## In-flight guard (claim C1) -/

/-- Any single event preserves the guard invariant. -/
theorem stepEv_inv (cfg : Config) (s : LoopState) (e : MEvent)
    (h : loopInv s) : loopInv (stepEv cfg s e) := by
  unfold loopInv at h ⊢
  cases e with
  | trigger =>
    by_cases hp : s.isProcessing <;> simp [stepEv, hp] <;> simp [hp] at h <;> omega
  | complete r now =>
    by_cases hp : s.isProcessing <;> simp [stepEv, hp] <;> simp [hp] at h <;> omega
  | fail =>
    by_cases hp : s.isProcessing <;> simp [stepEv, hp] <;> simp [hp] at h <;> omega

/-- The invariant holds along every trace from the initial state. -/
theorem runEvents_inv (cfg : Config) :
    ∀ (evs : List MEvent) (s : LoopState), loopInv s → loopInv (runEvents cfg s evs) := by
  intro evs
  induction evs with
  | nil => intro s h; exact h
  | cons e rest ih =>
    intro s h
    exact ih (stepEv cfg s e) (stepEv_inv cfg s e h)

/-- C1: along every event trace from the initial state, at most one
cycle is ever open; a trigger (watcher event or poll tick) arriving
while the flag is latched leaves the whole state unchanged (dropped,
nothing queued); and both cycle completion and cycle failure clear the
flag, the failure path leaving the monitor state untouched. -/
theorem inflight_guard_spec (cfg : Config) (evs : List MEvent) :
    (runEvents cfg initLoopState evs).openCycles ≤ 1
    ∧ ((runEvents cfg initLoopState evs).isProcessing = true →
        stepEv cfg (runEvents cfg initLoopState evs) .trigger
          = runEvents cfg initLoopState evs)
    ∧ ((runEvents cfg initLoopState evs).isProcessing = true →
        (stepEv cfg (runEvents cfg initLoopState evs) .fail).isProcessing = false
        ∧ (stepEv cfg (runEvents cfg initLoopState evs) .fail).mon
            = (runEvents cfg initLoopState evs).mon)
    ∧ (∀ r now, (runEvents cfg initLoopState evs).isProcessing = true →
        (stepEv cfg (runEvents cfg initLoopState evs) (.complete r now)).isProcessing
          = false) := by
  have hinv : loopInv (runEvents cfg initLoopState evs) :=
    runEvents_inv cfg evs initLoopState (by simp [loopInv, initLoopState])
  unfold loopInv at hinv
  refine ⟨?_, ?_, ?_, ?_⟩
  · split at hinv <;> omega
  · intro hp
    simp [stepEv, hp]
  · intro hp
    simp [stepEv, hp]
  · intro r now hp
    simp [stepEv, hp]

/-- Witness for `inflight_guard_spec`: after a single trigger the flag
is latched and a second trigger is dropped. -/
theorem inflight_guard_spec_witness :
    (runEvents cfgSample initLoopState [MEvent.trigger]).isProcessing = true
    ∧ stepEv cfgSample (runEvents cfgSample initLoopState [MEvent.trigger]) .trigger
        = runEvents cfgSample initLoopState [MEvent.trigger] :=
  ⟨by decide, (inflight_guard_spec cfgSample [MEvent.trigger]).2.1 (by decide)⟩

/-! ## Prompt formatter (claim C6) -/

/-- Boolean prefix test: a list is a prefix of itself followed by
anything. -/
theorem isPrefixOf_self_append {α : Type} [BEq α] [LawfulBEq α] :
    ∀ (l b : List α), l.isPrefixOf (l ++ b) = true := by
  intro l
  induction l with
  | nil => intro b; simp [List.isPrefixOf]
  | cons c t ih =>
    intro b
    simp [List.isPrefixOf, ih b]

/-- When no `$` occurs before it, the first occurrence of a `$`-initial
pattern sitting at position `a.length` is the one `indexOf` finds. -/
theorem findSub_append (pat b : List Char) (hpat : pat.head? = some '$') :
    ∀ (a : List Char), '$' ∉ a → findSub (a ++ (pat ++ b)) pat = some a.length := by
  intro a
  induction a with
  | nil =>
    intro _
    simp only [List.nil_append]
    unfold findSub
    rw [if_pos (isPrefixOf_self_append pat b)]
    rfl
  | cons c a2 ih =>
    intro hmem
    have hc : ¬ ('$' = c) := fun h => hmem (h ▸ List.mem_cons_self c a2)
    cases pat with
    | nil => simp at hpat
    | cons p0 pt =>
      have hp0 : p0 = '$' := by simpa using hpat
      subst hp0
      have hnp : ¬ (('$' :: pt).isPrefixOf (c :: (a2 ++ '$' :: (pt ++ b))) = true) := by
        simp [List.isPrefixOf]
        intro h
        exact absurd h hc
      simp only [List.cons_append, List.length_cons]
      unfold findSub
      rw [if_neg hnp]
      show Option.map (fun x => x + 1) (findSub (a2 ++ ('$' :: pt ++ b)) ('$' :: pt))
            = some (a2.length + 1)
      rw [ih (fun h => hmem (List.mem_cons_of_mem c h))]
      rfl

/-- A `$`-initial pattern never occurs in a `$`-free subject. -/
theorem findSub_no_dollar (pat : List Char) (hpat : pat.head? = some '$') :
    ∀ (s : List Char), '$' ∉ s → findSub s pat = none := by
  intro s
  induction s with
  | nil =>
    intro _
    cases pat with
    | nil => simp at hpat
    | cons p0 pt =>
      unfold findSub
      rw [if_neg (by simp [List.isPrefixOf])]
  | cons c t ih =>
    intro hmem
    have hc : ¬ ('$' = c) := fun h => hmem (h ▸ List.mem_cons_self c t)
    cases pat with
    | nil => simp at hpat
    | cons p0 pt =>
      have hp0 : p0 = '$' := by simpa using hpat
      subst hp0
      unfold findSub
      rw [if_neg (by simp [List.isPrefixOf]; intro h; exact absurd h hc)]
      show Option.map (fun x => x + 1) (findSub t ('$' :: pt)) = none
      rw [ih (fun h => hmem (List.mem_cons_of_mem c h))]
      rfl

/-- A `$`-free replacement text is not rewritten by `GetSubstitution`. -/
theorem getSubstitution_id (matched before after : List Char) :
    ∀ (rep : List Char), '$' ∉ rep →
      getSubstitution matched before after rep = rep := by
  intro rep
  induction rep with
  | nil => intro _; rfl
  | cons c t ih =>
    intro hmem
    have hc : ¬ (c = '$') := fun h => hmem (h ▸ List.mem_cons_self c t)
    unfold getSubstitution
    rw [if_neg hc]
    rw [ih (fun h => hmem (List.mem_cons_of_mem c h))]

/-- The single-occurrence replacement of a `$`-initial token at a
`$`-free position, with a `$`-free replacement: pure splicing. -/
theorem jsReplace_append (pat b a rep : List Char) (hpat : pat.head? = some '$')
    (ha : '$' ∉ a) (hrep : '$' ∉ rep) :
    jsReplace (a ++ (pat ++ b)) pat rep = a ++ (rep ++ b) := by
  unfold jsReplace
  rw [findSub_append pat b hpat a ha]
  have htake : (a ++ (pat ++ b)).take a.length = a := List.take_left a (pat ++ b)
  have hdrop : (a ++ (pat ++ b)).drop (a.length + pat.length) = b := by
    rw [← List.drop_drop]
    rw [List.drop_left a (pat ++ b)]
    exact List.drop_left pat b
  simp only [htake, hdrop]
  rw [getSubstitution_id pat a b rep hrep]
  simp

/-- A sublist embedded by context is found. -/
theorem containsSub_append (v : List Char) :
    ∀ (x y : List Char), containsSub (x ++ (v ++ y)) v = true := by
  intro x
  induction x with
  | nil =>
    intro y
    simp only [List.nil_append]
    unfold containsSub findSub
    rw [if_pos (isPrefixOf_self_append v y)]
    rfl
  | cons c t ih =>
    intro y
    simp only [List.cons_append]
    unfold containsSub findSub
    by_cases hp : v.isPrefixOf (c :: (t ++ (v ++ y))) = true
    · rw [if_pos hp]
      rfl
    · rw [if_neg hp]
      have := ih y
      unfold containsSub at this
      cases hf : findSub (t ++ (v ++ y)) v with
      | none => rw [hf] at this; simp at this
      | some i =>
        show (Option.map (fun x => x + 1) (findSub (t ++ (v ++ y)) v)).isSome = true
        simp [hf]

/-- No `$`-initial token occurs in a `$`-free result. -/
theorem containsSub_no_dollar (pat s : List Char) (hpat : pat.head? = some '$')
    (hs : '$' ∉ s) : containsSub s pat = false := by
  unfold containsSub
  rw [findSub_no_dollar pat hpat s hs]
  rfl

/-- One search step: when the pattern does not match at the head, the
search continues one position further. -/
theorem findSub_cons_step (pat : List Char) (c : Char) (s : List Char)
    (h : pat.isPrefixOf (c :: s) = false) :
    findSub (c :: s) pat = (findSub s pat).map (· + 1) := by
  show (if pat.isPrefixOf (c :: s) = true then some 0
        else (findSub s pat).map (· + 1)) = (findSub s pat).map (· + 1)
  rw [h]
  simp

/-- Skipping a `$`-free block of the subject shifts the search result by
the block's length. -/
theorem findSub_shift_free (pat : List Char) (hpat : pat.head? = some '$') :
    ∀ (w R : List Char), '$' ∉ w →
      findSub (w ++ R) pat = (findSub R pat).map (· + w.length) := by
  intro w
  induction w with
  | nil =>
    intro R _
    simp only [List.nil_append, List.length_nil]
    cases findSub R pat <;> simp
  | cons c w2 ih =>
    intro R hmem
    have hc : ¬ ('$' = c) := fun h => hmem (h ▸ List.mem_cons_self c w2)
    have hpre : pat.isPrefixOf (c :: (w2 ++ R)) = false := by
      cases pat with
      | nil => simp at hpat
      | cons p0 pt =>
        have hp0 : p0 = '$' := by simpa using hpat
        subst hp0
        simp [List.isPrefixOf]
        intro h
        exact absurd h hc
    simp only [List.cons_append, List.length_cons]
    rw [findSub_cons_step pat c (w2 ++ R) hpre,
      ih R (fun h => hmem (List.mem_cons_of_mem c h))]
    cases findSub R pat <;> simp <;> omega

/-- Skipping a block whose text is not a match position and whose tail
is `$`-free also shifts the search result by the block's length. -/
theorem findSub_skip_block (pat w R : List Char) (hpat : pat.head? = some '$')
    (hw : w ≠ []) (h0 : pat.isPrefixOf (w ++ R) = false)
    (htail : '$' ∉ w.tail) :
    findSub (w ++ R) pat = (findSub R pat).map (· + w.length) := by
  cases w with
  | nil => exact absurd rfl hw
  | cons c w2 =>
    simp only [List.cons_append, List.length_cons] at h0 ⊢
    rw [findSub_cons_step pat c (w2 ++ R) h0,
      findSub_shift_free pat hpat w2 R (by simpa using htail)]
    cases findSub R pat <;> simp <;> omega

/-- A pattern that disagrees with a block at an index inside both is not
a prefix of the block however the block is extended. -/
theorem isPrefixOf_false_of_mismatch :
    ∀ (i : Nat) (T B : List Char), i < T.length → i < B.length →
      T.getD i 'x' ≠ B.getD i 'x' →
      ∀ (R : List Char), T.isPrefixOf (B ++ R) = false := by
  intro i
  induction i with
  | zero =>
    intro T B hT hB hne R
    cases T with
    | nil => simp at hT
    | cons t0 Tt =>
      cases B with
      | nil => simp at hB
      | cons b0 Bt =>
        have : t0 ≠ b0 := by simpa using hne
        simp [List.isPrefixOf, this]
  | succ k ih =>
    intro T B hT hB hne R
    cases T with
    | nil => simp at hT
    | cons t0 Tt =>
      cases B with
      | nil => simp at hB
      | cons b0 Bt =>
        by_cases he : t0 = b0
        · subst he
          have htail := ih Tt Bt (by simpa using hT) (by simpa using hB)
            (by simpa using hne) R
          simp [List.isPrefixOf, htail]
        · simp [List.isPrefixOf, he]

/-- Replacing inside `w ++ R` when the match sits inside `R` and the
first `w.length` positions are skipped: the block `w` passes through. -/
theorem jsReplace_shift (pat w R v : List Char) (j : Nat)
    (hv : '$' ∉ v)
    (hshift : findSub (w ++ R) pat = (findSub R pat).map (· + w.length))
    (hj : findSub R pat = some j) :
    jsReplace (w ++ R) pat v = w ++ jsReplace R pat v := by
  unfold jsReplace
  rw [hshift, hj]
  show (w ++ R).take (j + w.length) ++
      getSubstitution pat ((w ++ R).take (j + w.length))
        ((w ++ R).drop (j + w.length + pat.length)) v ++
      (w ++ R).drop (j + w.length + pat.length)
    = w ++ (R.take j ++
        getSubstitution pat (R.take j) (R.drop (j + pat.length)) v ++
        R.drop (j + pat.length))
  have htake : (w ++ R).take (j + w.length) = w ++ R.take j := by
    rw [Nat.add_comm j w.length]
    exact List.take_append j
  have hdrop : (w ++ R).drop (j + w.length + pat.length)
      = R.drop (j + pat.length) := by
    rw [show j + w.length + pat.length = w.length + (j + pat.length) by omega]
    exact List.drop_append (j + pat.length)
  rw [htake, hdrop, getSubstitution_id pat _ _ v hv,
    getSubstitution_id pat _ _ v hv]
  simp [List.append_assoc]

/-- Every placeholder token starts with `$`. -/
theorem ph_token_head (p : TplPiece) (h : isPh p = true) :
    (pieceText p).head? = some '$' := by
  cases p with
  | lit l => simp [isPh] at h
  | phType => decide
  | phSeverity => decide
  | phTimestamp => decide
  | phContext => decide

/-- No placeholder token contains `$` after its first character. -/
theorem ph_token_tail (p : TplPiece) (h : isPh p = true) :
    '$' ∉ (pieceText p).tail := by
  cases p with
  | lit l => simp [isPh] at h
  | phType => decide
  | phSeverity => decide
  | phTimestamp => decide
  | phContext => decide

/-- Placeholder tokens are non-empty. -/
theorem ph_token_ne_nil (p : TplPiece) (h : isPh p = true) :
    pieceText p ≠ [] := by
  intro he
  have := ph_token_head p h
  rw [he] at this
  simp at this

/-- Distinct placeholder tokens disagree within their first characters,
so one never matches at the position of another. -/
theorem ph_tokens_cross (p q : TplPiece) (hp : isPh p = true)
    (hq : isPh q = true) (hne : p ≠ q) (R : List Char) :
    (pieceText p).isPrefixOf (pieceText q ++ R) = false := by
  cases p <;> cases q <;>
    first
    | exact isPrefixOf_false_of_mismatch 2 _ _ (by decide) (by decide) (by decide) R
    | exact isPrefixOf_false_of_mismatch 3 _ _ (by decide) (by decide) (by decide) R
    | exact absurd rfl hne
    | simp [isPh] at hp hq

/-- Substituting a placeholder absent from the list changes nothing. -/
theorem map_substPiece_id (ph : TplPiece) (v : List Char) :
    ∀ (ps : List TplPiece), ph ∉ ps → ps.map (substPiece ph v) = ps := by
  intro ps
  induction ps with
  | nil => intro _; rfl
  | cons p t ih =>
    intro h
    have hp : p ≠ ph := fun he => h (he ▸ List.mem_cons_self p t)
    simp only [List.map_cons, substPiece, if_neg hp]
    rw [ih (fun hm => h (List.mem_cons_of_mem p hm))]

/-- Substituting one placeholder does not change the count of a
different placeholder. -/
theorem count_map_substPiece (ph q : TplPiece) (v : List Char)
    (hq : isPh q = true) (hne : q ≠ ph) :
    ∀ (ps : List TplPiece), (ps.map (substPiece ph v)).count q = ps.count q := by
  intro ps
  induction ps with
  | nil => rfl
  | cons p t ih =>
    simp only [List.map_cons, List.count_cons, ih]
    congr 1
    by_cases hp : p = ph
    · subst hp
      have h1 : substPiece p v p = .lit v := by simp [substPiece]
      have h2 : (TplPiece.lit v == q) = false := by
        cases q <;> simp [isPh] at hq ⊢
      have h3 : (p == q) = false := by
        simp
        intro he
        exact hne he.symm
      rw [h1, h2, h3]
    · rw [show substPiece ph v p = p from by simp [substPiece, hp]]

/-- Substituting a placeholder by a `$`-free value keeps all literal
segments `$`-free. -/
theorem litsFree_map_substPiece (ph : TplPiece) (v : List Char)
    (hv : '$' ∉ v) (ps : List TplPiece)
    (h : ∀ l, TplPiece.lit l ∈ ps → '$' ∉ l) :
    ∀ l, TplPiece.lit l ∈ ps.map (substPiece ph v) → '$' ∉ l := by
  intro l hl
  obtain ⟨p, hp, he⟩ := List.mem_map.mp hl
  by_cases hpe : p = ph
  · subst hpe
    have : TplPiece.lit v = TplPiece.lit l := by simpa [substPiece] using he
    obtain rfl : v = l := by injection this
    exact hv
  · rw [show substPiece ph v p = p from by simp [substPiece, hpe]] at he
    exact h l (he ▸ hp)

/-- A member piece splits the rendered template around its text. -/
theorem renderTpl_split :
    ∀ (qs : List TplPiece) (p : TplPiece), p ∈ qs →
      ∃ X Y, renderTpl qs = X ++ (pieceText p ++ Y) := by
  intro qs
  induction qs with
  | nil => intro p h; simp at h
  | cons q t ih =>
    intro p h
    rcases List.mem_cons.mp h with rfl | h
    · exact ⟨[], renderTpl t, rfl⟩
    · obtain ⟨X, Y, hXY⟩ := ih p h
      exact ⟨pieceText q ++ X, Y, by simp [renderTpl, hXY, List.append_assoc]⟩

/-- A template made only of `$`-free literals renders `$`-free. -/
theorem renderTpl_no_dollar :
    ∀ (qs : List TplPiece),
      (∀ p ∈ qs, ∃ l, p = TplPiece.lit l ∧ '$' ∉ l) →
      '$' ∉ renderTpl qs := by
  intro qs
  induction qs with
  | nil => intro _; simp [renderTpl]
  | cons q t ih =>
    intro h
    obtain ⟨l, rfl, hl⟩ := h q (List.mem_cons_self q t)
    intro hm
    rcases List.mem_append.mp hm with hm | hm
    · exact hl hm
    · exact ih (fun p hp => h p (List.mem_cons_of_mem _ hp)) hm

/-- The four substitutions in code order amount to substituting the
whole record, whatever order the placeholders sit in. -/
theorem map4_substRecord (r : ERecord) :
    ∀ (ps : List TplPiece),
      ((((ps.map (substPiece .phType r.type.data)).map
          (substPiece .phSeverity r.severity.data)).map
          (substPiece .phTimestamp r.timestamp.data)).map
          (substPiece .phContext r.context.data))
        = ps.map (substRecord r) := by
  intro ps
  induction ps with
  | nil => rfl
  | cons p t ih =>
    simp only [List.map_cons, ih]
    congr 1
    cases p <;> simp [substPiece, substRecord]

/-- Searching for a placeholder token past any other piece (a `$`-free
literal or a different placeholder) shifts by that piece's length. -/
theorem piece_shift (ph p : TplPiece) (hph : isPh ph = true) (hne : p ≠ ph)
    (hfree : ∀ l, p = TplPiece.lit l → '$' ∉ l) (R : List Char) :
    findSub (pieceText p ++ R) (pieceText ph)
      = (findSub R (pieceText ph)).map (· + (pieceText p).length) := by
  cases p with
  | lit l => exact findSub_shift_free _ (ph_token_head ph hph) l R (hfree l rfl)
  | phType =>
    exact findSub_skip_block _ _ R (ph_token_head ph hph)
      (ph_token_ne_nil TplPiece.phType rfl)
      (ph_tokens_cross ph TplPiece.phType hph rfl (fun h => hne h.symm) R)
      (ph_token_tail TplPiece.phType rfl)
  | phSeverity =>
    exact findSub_skip_block _ _ R (ph_token_head ph hph)
      (ph_token_ne_nil TplPiece.phSeverity rfl)
      (ph_tokens_cross ph TplPiece.phSeverity hph rfl (fun h => hne h.symm) R)
      (ph_token_tail TplPiece.phSeverity rfl)
  | phTimestamp =>
    exact findSub_skip_block _ _ R (ph_token_head ph hph)
      (ph_token_ne_nil TplPiece.phTimestamp rfl)
      (ph_tokens_cross ph TplPiece.phTimestamp hph rfl (fun h => hne h.symm) R)
      (ph_token_tail TplPiece.phTimestamp rfl)
  | phContext =>
    exact findSub_skip_block _ _ R (ph_token_head ph hph)
      (ph_token_ne_nil TplPiece.phContext rfl)
      (ph_tokens_cross ph TplPiece.phContext hph rfl (fun h => hne h.symm) R)
      (ph_token_tail TplPiece.phContext rfl)

/-- One `replace` call on a rendered template containing the placeholder
exactly once, with `$`-free literals and a `$`-free value: the token is
found, and exactly the placeholder piece becomes the value. -/
theorem substStep (ph : TplPiece) (v : List Char) (hph : isPh ph = true)
    (hv : '$' ∉ v) :
    ∀ (ps : List TplPiece), ps.count ph = 1 →
      (∀ l, TplPiece.lit l ∈ ps → '$' ∉ l) →
      (∃ j, findSub (renderTpl ps) (pieceText ph) = some j)
      ∧ jsReplace (renderTpl ps) (pieceText ph) v
          = renderTpl (ps.map (substPiece ph v)) := by
  intro ps
  induction ps with
  | nil => intro hc _; simp at hc
  | cons p t ih =>
    intro hc hlit
    by_cases hp : p = ph
    · subst hp
      have hct : t.count p = 0 := by
        simp [List.count_cons] at hc
        omega
      have hnm : p ∉ t := List.count_eq_zero.mp hct
      have hfind : findSub (pieceText p ++ renderTpl t) (pieceText p) = some 0 := by
        unfold findSub
        rw [if_pos (isPrefixOf_self_append (pieceText p) (renderTpl t))]
      refine ⟨⟨0, by simpa [renderTpl] using hfind⟩, ?_⟩
      show jsReplace (pieceText p ++ renderTpl t) (pieceText p) v = _
      unfold jsReplace
      rw [hfind]
      simp only [List.take_zero, Nat.zero_add, List.nil_append, List.drop_left]
      rw [getSubstitution_id _ _ _ v hv]
      simp only [List.map_cons, substPiece, if_pos rfl, map_substPiece_id p v t hnm]
      rfl
    · have hct : t.count ph = 1 := by
        simpa [List.count_cons, hp] using hc
      obtain ⟨⟨j, hj⟩, heq⟩ := ih hct (fun l hl => hlit l (List.mem_cons_of_mem p hl))
      have hhead : findSub (pieceText p ++ renderTpl t) (pieceText ph)
          = (findSub (renderTpl t) (pieceText ph)).map (· + (pieceText p).length) :=
        piece_shift ph p hph hp
          (fun l he => hlit l (by rw [← he]; exact List.mem_cons_self p t)) (renderTpl t)
      refine ⟨⟨j + (pieceText p).length, ?_⟩, ?_⟩
      · show findSub (pieceText p ++ renderTpl t) (pieceText ph) = _
        rw [hhead, hj]
        rfl
      · show jsReplace (pieceText p ++ renderTpl t) (pieceText ph) v = _
        rw [jsReplace_shift (pieceText ph) (pieceText p) (renderTpl t) v j hv hhead hj,
          heq]
        simp only [List.map_cons]
        rw [show substPiece ph v p = p from by simp [substPiece, hp]]
        rfl

/-- C6 counterexample: the template repeats `${type}` yet contains all
four placeholders; since each `replace` call substitutes only the first
occurrence, the second `${type}` survives into the output — a
placeholder token remains, contradicting the claim. -/
theorem formatErrorPrompt_dup_cex :
    containsSub "${type} ${type} ${severity} ${timestamp} ${context}".data
        "${type}".data = true
    ∧ containsSub "${type} ${type} ${severity} ${timestamp} ${context}".data
        "${severity}".data = true
    ∧ containsSub "${type} ${type} ${severity} ${timestamp} ${context}".data
        "${timestamp}".data = true
    ∧ containsSub "${type} ${type} ${severity} ${timestamp} ${context}".data
        "${context}".data = true
    ∧ containsSub (formatErrorPrompt cfgDup egRecord).data "${type}".data = true := by
  refine ⟨by decide, by decide, by decide, by decide, by decide⟩

/-- C6 (amended): for every custom template assembled, in any order,
from `$`-free literal segments and the four placeholders each occurring
exactly once, and every record whose field values are `$`-free, the
formatted output is the template with each placeholder spliced out for
the corresponding field: it contains each field value verbatim and no
placeholder token remains. -/
theorem formatErrorPrompt_template_spec (cfg : Config) (tpl : String)
    (r : ERecord) (ps : List TplPiece)
    (hcfg : cfg.customPromptTemplate = some tpl)
    (htpl : tpl.data = renderTpl ps)
    (hcType : ps.count TplPiece.phType = 1)
    (hcSev : ps.count TplPiece.phSeverity = 1)
    (hcTime : ps.count TplPiece.phTimestamp = 1)
    (hcCtx : ps.count TplPiece.phContext = 1)
    (hlits : ∀ l, TplPiece.lit l ∈ ps → '$' ∉ l)
    (hvt : '$' ∉ r.type.data) (hvs : '$' ∉ r.severity.data)
    (hvm : '$' ∉ r.timestamp.data) (hvk : '$' ∉ r.context.data) :
    (formatErrorPrompt cfg r).data = renderTpl (ps.map (substRecord r))
    ∧ containsSub (formatErrorPrompt cfg r).data r.type.data = true
    ∧ containsSub (formatErrorPrompt cfg r).data r.severity.data = true
    ∧ containsSub (formatErrorPrompt cfg r).data r.timestamp.data = true
    ∧ containsSub (formatErrorPrompt cfg r).data r.context.data = true
    ∧ containsSub (formatErrorPrompt cfg r).data "${type}".data = false
    ∧ containsSub (formatErrorPrompt cfg r).data "${severity}".data = false
    ∧ containsSub (formatErrorPrompt cfg r).data "${timestamp}".data = false
    ∧ containsSub (formatErrorPrompt cfg r).data "${context}".data = false := by
  have hfmt : (formatErrorPrompt cfg r).data = substituteTemplate tpl.data r := by
    simp [formatErrorPrompt, hcfg]
  have s1 := (substStep TplPiece.phType r.type.data rfl hvt ps hcType hlits).2
  have hlits1 := litsFree_map_substPiece TplPiece.phType r.type.data hvt ps hlits
  have hc1Sev : (ps.map (substPiece TplPiece.phType r.type.data)).count
      TplPiece.phSeverity = 1 := by
    rw [count_map_substPiece TplPiece.phType TplPiece.phSeverity r.type.data rfl
      (by decide) ps]
    exact hcSev
  have hc1Time : (ps.map (substPiece TplPiece.phType r.type.data)).count
      TplPiece.phTimestamp = 1 := by
    rw [count_map_substPiece TplPiece.phType TplPiece.phTimestamp r.type.data rfl
      (by decide) ps]
    exact hcTime
  have hc1Ctx : (ps.map (substPiece TplPiece.phType r.type.data)).count
      TplPiece.phContext = 1 := by
    rw [count_map_substPiece TplPiece.phType TplPiece.phContext r.type.data rfl
      (by decide) ps]
    exact hcCtx
  have s2 := (substStep TplPiece.phSeverity r.severity.data rfl hvs _ hc1Sev hlits1).2
  have hlits2 := litsFree_map_substPiece TplPiece.phSeverity r.severity.data hvs _ hlits1
  have hc2Time : ((ps.map (substPiece TplPiece.phType r.type.data)).map
      (substPiece TplPiece.phSeverity r.severity.data)).count TplPiece.phTimestamp = 1 := by
    rw [count_map_substPiece TplPiece.phSeverity TplPiece.phTimestamp r.severity.data rfl
      (by decide) _]
    exact hc1Time
  have hc2Ctx : ((ps.map (substPiece TplPiece.phType r.type.data)).map
      (substPiece TplPiece.phSeverity r.severity.data)).count TplPiece.phContext = 1 := by
    rw [count_map_substPiece TplPiece.phSeverity TplPiece.phContext r.severity.data rfl
      (by decide) _]
    exact hc1Ctx
  have s3 := (substStep TplPiece.phTimestamp r.timestamp.data rfl hvm _ hc2Time hlits2).2
  have hlits3 := litsFree_map_substPiece TplPiece.phTimestamp r.timestamp.data hvm _ hlits2
  have hc3Ctx : (((ps.map (substPiece TplPiece.phType r.type.data)).map
      (substPiece TplPiece.phSeverity r.severity.data)).map
      (substPiece TplPiece.phTimestamp r.timestamp.data)).count TplPiece.phContext = 1 := by
    rw [count_map_substPiece TplPiece.phTimestamp TplPiece.phContext r.timestamp.data rfl
      (by decide) _]
    exact hc2Ctx
  have s4 := (substStep TplPiece.phContext r.context.data rfl hvk _ hc3Ctx hlits3).2
  have hall : (formatErrorPrompt cfg r).data = renderTpl (ps.map (substRecord r)) := by
    rw [hfmt]
    show jsReplace (jsReplace (jsReplace (jsReplace tpl.data
        (pieceText TplPiece.phType) r.type.data)
        (pieceText TplPiece.phSeverity) r.severity.data)
        (pieceText TplPiece.phTimestamp) r.timestamp.data)
        (pieceText TplPiece.phContext) r.context.data = _
    rw [htpl, s1, s2, s3, s4, map4_substRecord r ps]
  have hnod : '$' ∉ renderTpl (ps.map (substRecord r)) := by
    apply renderTpl_no_dollar
    intro p hp
    obtain ⟨q, hq, rfl⟩ := List.mem_map.mp hp
    cases q with
    | lit l => exact ⟨l, rfl, hlits l hq⟩
    | phType => exact ⟨r.type.data, rfl, hvt⟩
    | phSeverity => exact ⟨r.severity.data, rfl, hvs⟩
    | phTimestamp => exact ⟨r.timestamp.data, rfl, hvm⟩
    | phContext => exact ⟨r.context.data, rfl, hvk⟩
  have hsplit : ∀ (q : TplPiece), q ∈ ps →
      containsSub (formatErrorPrompt cfg r).data (pieceText (substRecord r q)) = true := by
    intro q hq
    obtain ⟨X, Y, hXY⟩ :=
      renderTpl_split (ps.map (substRecord r)) (substRecord r q)
        (List.mem_map_of_mem (substRecord r) hq)
    rw [hall, hXY]
    exact containsSub_append _ X Y
  have hmType : TplPiece.phType ∈ ps :=
    List.count_pos_iff.mp (by rw [hcType]; omega)
  have hmSev : TplPiece.phSeverity ∈ ps :=
    List.count_pos_iff.mp (by rw [hcSev]; omega)
  have hmTime : TplPiece.phTimestamp ∈ ps :=
    List.count_pos_iff.mp (by rw [hcTime]; omega)
  have hmCtx : TplPiece.phContext ∈ ps :=
    List.count_pos_iff.mp (by rw [hcCtx]; omega)
  refine ⟨hall, hsplit TplPiece.phType hmType, hsplit TplPiece.phSeverity hmSev,
    hsplit TplPiece.phTimestamp hmTime, hsplit TplPiece.phContext hmCtx,
    ?_, ?_, ?_, ?_⟩ <;>
    rw [hall] <;>
    exact containsSub_no_dollar _ _ (by decide) hnod

/-- Witness for `formatErrorPrompt_template_spec` on a concrete template
whose placeholders appear in a permuted order. -/
theorem formatErrorPrompt_template_spec_witness :
    containsSub (formatErrorPrompt cfgTpl egRecord).data egRecord.type.data = true
    ∧ containsSub (formatErrorPrompt cfgTpl egRecord).data "${type}".data = false :=
  ⟨(formatErrorPrompt_template_spec cfgTpl
      "${context} | ${timestamp} ${severity} ${type}!" egRecord psPerm
      (by decide) (by decide) (by decide) (by decide) (by decide) (by decide)
      (by intro l hl; simp [psPerm] at hl
          rcases hl with rfl | rfl | rfl <;> decide)
      (by decide) (by decide) (by decide) (by decide)).2.1,
   (formatErrorPrompt_template_spec cfgTpl
      "${context} | ${timestamp} ${severity} ${type}!" egRecord psPerm
      (by decide) (by decide) (by decide) (by decide) (by decide) (by decide)
      (by intro l hl; simp [psPerm] at hl
          rcases hl with rfl | rfl | rfl <;> decide)
      (by decide) (by decide) (by decide) (by decide)).2.2.2.2.2.1⟩

/-! ## File writer (claim C7) -/

/-- A normalization step never discards the accumulated prefix unless
the segment is `..`. -/
theorem normStep_extends (acc : List String) (seg : String) (h : seg ≠ "..") :
    acc <+: normStep acc seg := by
  unfold normStep
  by_cases h1 : seg = "" ∨ seg = "."
  · rw [if_pos h1]
  · rw [if_neg h1, if_neg h]
    exact List.prefix_append acc [seg]

/-- Normalizing further segments never discards the accumulator prefix
when no segment is `..`. -/
theorem foldl_normStep_extends :
    ∀ (l : List String), (∀ seg ∈ l, seg ≠ "..") →
      ∀ acc, acc <+: l.foldl normStep acc := by
  intro l
  induction l with
  | nil => intro _ acc; exact List.prefix_rfl
  | cons seg t ih =>
    intro h acc
    exact (normStep_extends acc seg (h seg (List.mem_cons_self seg t))).trans
      (ih (fun s hs => h s (List.mem_cons_of_mem seg hs)) (normStep acc seg))

/-- A normalization step only ever adds good segments. -/
theorem normStep_good (acc : List String) (seg : String)
    (h : ∀ s ∈ acc, goodSeg s) : ∀ s ∈ normStep acc seg, goodSeg s := by
  unfold normStep
  by_cases h1 : seg = "" ∨ seg = "."
  · rw [if_pos h1]; exact h
  · rw [if_neg h1]
    by_cases h2 : seg = ".."
    · rw [if_pos h2]
      intro s hs
      exact h s (List.dropLast_subset acc hs)
    · rw [if_neg h2]
      intro s hs
      rcases List.mem_append.mp hs with hs | hs
      · exact h s hs
      · have : s = seg := by simpa using hs
        subst this
        exact ⟨fun he => h1 (Or.inl he), fun he => h1 (Or.inr he), h2⟩

/-- Folding normalization preserves segment goodness. -/
theorem foldl_normStep_good :
    ∀ (l acc : List String), (∀ s ∈ acc, goodSeg s) →
      ∀ s ∈ l.foldl normStep acc, goodSeg s := by
  intro l
  induction l with
  | nil => intro acc h; exact h
  | cons seg t ih => intro acc h; exact ih _ (normStep_good acc seg h)

/-- Every segment of a normalized path is good. -/
theorem normSegs_good (l : List String) : ∀ s ∈ normSegs l, goodSeg s :=
  foldl_normStep_good l [] (by simp)

/-- Normalization is the identity on lists of good segments. -/
theorem foldl_normStep_id :
    ∀ (l : List String), (∀ s ∈ l, goodSeg s) →
      ∀ acc, l.foldl normStep acc = acc ++ l := by
  intro l
  induction l with
  | nil => intro _ acc; simp
  | cons seg t ih =>
    intro h acc
    have hg := h seg (List.mem_cons_self seg t)
    have hstep : normStep acc seg = acc ++ [seg] := by
      unfold normStep
      rw [if_neg (by rintro (he | he) <;> [exact hg.1 he; exact hg.2.1 he]),
        if_neg hg.2.2]
    rw [List.foldl_cons, hstep,
      ih (fun s hs => h s (List.mem_cons_of_mem seg hs)) (acc ++ [seg])]
    simp

/-- Normalization by `normSegs` fixes already-normalized paths. -/
theorem normSegs_id (l : List String) (h : ∀ s ∈ l, goodSeg s) :
    normSegs l = l := by
  simpa using foldl_normStep_id l h []

/-- Every segment of a resolved path is good. -/
theorem resolveSegs_good (cwd : List String) (p : String) :
    ∀ s ∈ resolveSegs cwd p, goodSeg s := by
  unfold resolveSegs
  split
  · exact normSegs_good _
  · exact normSegs_good _

/-- Writing with `setFile` really stores the contents under the key. -/
theorem find?_setFile (p : List String) (c : String) :
    ∀ (files : List (List String × String)),
      (setFile files p c).find? (fun q => q.1 == p) = some (p, c) := by
  intro files
  induction files with
  | nil => simp [setFile]
  | cons a t ih =>
    by_cases ha : a.1 = p
    · have hsome : ((a :: t).find? (fun q => q.1 == p)).isSome := by
        rw [List.find?_cons_of_pos _ (by simp [ha])]; rfl
      unfold setFile
      rw [if_pos hsome]
      simp only [List.map_cons, if_pos (show (a.1 == p) = true by simp [ha])]
      rw [List.find?_cons_of_pos _ (by simp [ha]), ha]
    · by_cases ht : (t.find? (fun q => q.1 == p)).isSome
      · have hat : ((a :: t).find? (fun q => q.1 == p)).isSome := by
          rw [List.find?_cons_of_neg _ (by simp [ha])]; exact ht
        unfold setFile
        rw [if_pos hat]
        simp only [List.map_cons, if_neg (show ¬ (a.1 == p) = true by simp [ha])]
        rw [List.find?_cons_of_neg _ (by simp [ha])]
        have h2 := ih
        unfold setFile at h2
        rw [if_pos ht] at h2
        exact h2
      · have hat : ¬ ((a :: t).find? (fun q => q.1 == p)).isSome := by
          rw [List.find?_cons_of_neg _ (by simp [ha])]; exact ht
        unfold setFile
        rw [if_neg hat, List.cons_append,
          List.find?_cons_of_neg _ (by simp [ha])]
        have h2 := ih
        unfold setFile at h2
        rw [if_neg ht] at h2
        exact h2

/-- Prefixing one slash and stripping it round-trips. -/
theorem stripLeadingSlash_slash_append (filePath : String) :
    stripLeadingSlash ("/" ++ filePath) = filePath := by
  unfold stripLeadingSlash
  have hdata : ("/" ++ filePath).data = '/' :: filePath.data := by
    rw [String.data_append]
    rfl
  rw [hdata]
  rfl

/-- Stripping is the identity on paths that do not begin with a slash. -/
theorem stripLeadingSlash_id (filePath : String)
    (h : filePath.data.head? ≠ some '/') :
    stripLeadingSlash filePath = filePath := by
  unfold stripLeadingSlash
  split
  · rename_i t heq
    exact absurd (by rw [heq]; rfl) h
  · rfl

/-- Creating directories with `mkdirRec` leaves file contents alone. -/
theorem getFile_mkdirRec (fs : FS) (d p : List String) :
    getFile (mkdirRec fs d) p = getFile fs p := rfl

/-- C7: directive file writes resolve the target against the directory
of the monitored log file; one leading slash is stripped, so an
absolute-looking target behaves exactly like the relative one; with no
`..` segments the resolved path stays under the log directory; parent
directories are created recursively; command `append` concatenates
directly onto the old contents (creating the file when absent, no
newline inserted) and any other command replaces the contents. -/
theorem writeFile_spec (cwd : List String) (logPath : String) (fs : FS)
    (filePath content command : String) :
    (filePath.data.head? ≠ some '/' →
      writeFile cwd logPath fs ("/" ++ filePath) content command
        = writeFile cwd logPath fs filePath content command)
    ∧ ((∀ seg ∈ rawSegs (stripLeadingSlash filePath), seg ≠ "..") →
        (resolveSegs cwd logPath).dropLast
          <+: resolveTarget (resolveSegs cwd logPath).dropLast filePath)
    ∧ (command = "append" →
        getFile (writeFile cwd logPath fs filePath content command)
            (resolveTarget (resolveSegs cwd logPath).dropLast filePath)
          = some ((getFile fs
              (resolveTarget (resolveSegs cwd logPath).dropLast filePath)).getD ""
              ++ content))
    ∧ (command ≠ "append" →
        getFile (writeFile cwd logPath fs filePath content command)
            (resolveTarget (resolveSegs cwd logPath).dropLast filePath)
          = some content)
    ∧ (∀ d, d <+: (resolveTarget
          (resolveSegs cwd logPath).dropLast filePath).dropLast →
        d ∈ (writeFile cwd logPath fs filePath content command).dirs) := by
  refine ⟨?_, ?_, ?_, ?_, ?_⟩
  · intro h
    simp only [writeFile, resolveTarget, stripLeadingSlash_slash_append,
      stripLeadingSlash_id filePath h]
  · intro h
    have hgood : ∀ s ∈ (resolveSegs cwd logPath).dropLast, goodSeg s :=
      fun s hs => resolveSegs_good cwd logPath s (List.dropLast_subset _ hs)
    unfold resolveTarget normSegs
    rw [List.foldl_append]
    have hbase : List.foldl normStep [] (resolveSegs cwd logPath).dropLast
        = (resolveSegs cwd logPath).dropLast := by
      simpa using foldl_normStep_id _ hgood []
    rw [hbase]
    exact foldl_normStep_extends _ h _
  · intro hcmd
    subst hcmd
    simp only [writeFile, if_pos]
    unfold getFile
    rw [find?_setFile]
    rfl
  · intro hcmd
    simp only [writeFile, if_neg hcmd]
    unfold getFile
    rw [find?_setFile]
    rfl
  · intro d hd
    by_cases hcmd : command = "append" <;>
      simp only [writeFile, hcmd, if_pos, if_neg, mkdirRec] <;>
      simp [List.mem_append] <;>
      exact Or.inr hd

/-- Witness for `writeFile_spec`: a concrete append under the log
directory, with an absolute-looking target treated as relative. -/
theorem writeFile_spec_witness :
    resolveTarget (resolveSegs ["home"] "/var/log/app.log").dropLast "/out/f.txt"
        = ["var", "log", "out", "f.txt"]
    ∧ getFile (writeFile ["home"] "/var/log/app.log" fsEmpty "/out/f.txt" "hello" "append")
        (resolveTarget (resolveSegs ["home"] "/var/log/app.log").dropLast "/out/f.txt")
      = some ((getFile fsEmpty
          (resolveTarget (resolveSegs ["home"] "/var/log/app.log").dropLast "/out/f.txt")).getD ""
          ++ "hello")
    ∧ writeFile ["home"] "/var/log/app.log" fsEmpty ("/" ++ "out/f.txt") "x" "replace"
        = writeFile ["home"] "/var/log/app.log" fsEmpty "out/f.txt" "x" "replace" :=
  ⟨by decide,
   (writeFile_spec ["home"] "/var/log/app.log" fsEmpty "/out/f.txt" "hello" "append").2.2.1 rfl,
   (writeFile_spec ["home"] "/var/log/app.log" fsEmpty "out/f.txt" "x" "replace").1 (by decide)⟩

/-! ## Clipboard directive format error (claim C8) -/

/-- C8: clipboard text that begins with the directive marker but has
fewer than three lines makes directive processing fail with the
invalid-format error, and the file system is left untouched. -/
theorem processClipboardContent_short_spec (cwd : List String)
    (logPath : String) (fs : FS) (content : String)
    (h1 : strStartsWith "#auto-ai" content = true)
    (h2 : (splitS '\n' content).length < 3) :
    processClipboardContent cwd logPath fs content
      = (fs, ClipResult.formatError) := by
  unfold processClipboardContent
  rw [if_neg (by simp [h1]), if_pos h2]

/-- Witness for `processClipboardContent_short_spec`: a two-line
directive (path but no content) fails without touching the file
system. -/
theorem processClipboardContent_short_spec_witness :
    processClipboardContent ["home"] "/var/log/app.log" fsEmpty
        "#auto-ai replace\n/x.txt"
      = (fsEmpty, ClipResult.formatError) :=
  processClipboardContent_short_spec ["home"] "/var/log/app.log" fsEmpty
    "#auto-ai replace\n/x.txt" (by decide) (by decide)

/-! ## Clipboard last-seen update (claim C10) -/

/-- C10: after a tick processes any new non-empty clipboard content —
including one whose directive handling fails — the content becomes the
last-seen text, and a further tick with the same content is a complete
no-op, so a failed directive is never retried while the clipboard is
unchanged. -/
theorem clipboardTick_no_retry (cwd : List String) (logPath : String)
    (s : ClipState) (content : String) (h1 : content ≠ "")
    (h2 : content ≠ s.lastClipboardContent) :
    (clipboardTick cwd logPath s content).lastClipboardContent = content
    ∧ clipboardTick cwd logPath (clipboardTick cwd logPath s content) content
        = clipboardTick cwd logPath s content := by
  have hc : content ≠ "" ∧ content ≠ s.lastClipboardContent := ⟨h1, h2⟩
  constructor
  · unfold clipboardTick
    rw [if_pos hc]
  · unfold clipboardTick
    rw [if_pos hc, if_neg (by simp)]

/-- Witness for `clipboardTick_no_retry`: a malformed directive is
recorded as last-seen and not retried. -/
theorem clipboardTick_no_retry_witness :
    (clipboardTick ["home"] "/var/log/app.log"
        { lastClipboardContent := "", fs := fsEmpty }
        "#auto-ai replace\n/x.txt").lastClipboardContent
      = "#auto-ai replace\n/x.txt"
    ∧ clipboardTick ["home"] "/var/log/app.log"
        (clipboardTick ["home"] "/var/log/app.log"
          { lastClipboardContent := "", fs := fsEmpty } "#auto-ai replace\n/x.txt")
        "#auto-ai replace\n/x.txt"
      = clipboardTick ["home"] "/var/log/app.log"
          { lastClipboardContent := "", fs := fsEmpty } "#auto-ai replace\n/x.txt" :=
  clipboardTick_no_retry ["home"] "/var/log/app.log"
    { lastClipboardContent := "", fs := fsEmpty } "#auto-ai replace\n/x.txt"
    (by decide) (by decide)

end CodeBeam
